import Mathlib

/- Verification of the two core utility functions of TaleCast
   (src/utils.rs): the pattern renderer `replacer` and the XML
   namespace normalizer `remove_xml_namespaces`.

   The embedding works on `List Char`, matching the fact that the
   Rust code iterates over `char`s (for `replacer`) and over bytes
   that are valid UTF-8 (for the XML code, where the only byte
   inspected, the colon, can never occur inside a multi-byte
   UTF-8 sequence, so char-level and byte-level scans agree). -/

set_option autoImplicit false

/- ===== JSON values (serde_json::Value) =====
   Objects and arrays use bespoke mutually inductive list types so
   that every function below is structurally recursive and reduces
   inside the kernel. -/

mutual

inductive Value where
  | null : Value
  | bool (b : Bool) : Value
  | num (n : Int) : Value
  | str (s : String) : Value
  | arr (xs : ValueList) : Value
  | obj (kvs : ValueObj) : Value

inductive ValueList where
  | nil : ValueList
  | cons (v : Value) (rest : ValueList) : ValueList

inductive ValueObj where
  | nil : ValueObj
  | cons (k : String) (v : Value) (rest : ValueObj) : ValueObj

end

/-- Lowercase hexadecimal digit, as used by serde_json's escapes. -/
def hexNibble (n : Nat) : Char :=
  if n < 10 then Char.ofNat (48 + n) else Char.ofNat (87 + n)

/-- serde_json's `\u00XX` escape for a control character with code
point `n`. -/
def controlEscape (n : Nat) : List Char :=
  '\\' :: 'u' :: '0' :: '0' :: hexNibble (n / 16) :: [hexNibble (n % 16)]

/-- Escaping of a single character inside a JSON string literal,
mirroring serde_json's serializer: quote and backslash get a
backslash escape, the named control characters get their short
escapes, the remaining control characters get a `\u00XX` escape,
everything else is emitted verbatim. -/
def escapeJsonChar (c : Char) : List Char :=
  if c = '"' then ['\\', '"']
  else if c = '\\' then ['\\', '\\']
  else if c = Char.ofNat 8 then ['\\', 'b']
  else if c = Char.ofNat 9 then ['\\', 't']
  else if c = Char.ofNat 10 then ['\\', 'n']
  else if c = Char.ofNat 12 then ['\\', 'f']
  else if c = Char.ofNat 13 then ['\\', 'r']
  else if c.toNat < 32 then controlEscape c.toNat
  else [c]

def escapeList : List Char → List Char
  | [] => []
  | c :: cs => escapeJsonChar c ++ escapeList cs

def escapeJson (s : String) : String :=
  String.mk (escapeList s.toList)

mutual

/-- The default string representation of a JSON value: serde_json's
compact `Display`/`to_string()` output. -/
def jsonToString : Value → String
  | Value.null => "null"
  | Value.bool b => if b then "true" else "false"
  | Value.num n => toString n
  | Value.str s => "\"" ++ escapeJson s ++ "\""
  | Value.arr xs => "[" ++ jsonArrSeq xs ++ "]"
  | Value.obj kvs => "\x7b" ++ jsonObjSeq kvs ++ "\x7d"

def jsonArrSeq : ValueList → String
  | ValueList.nil => ""
  | ValueList.cons v ValueList.nil => jsonToString v
  | ValueList.cons v (ValueList.cons w rest) =>
      jsonToString v ++ "," ++ jsonArrSeq (ValueList.cons w rest)

def jsonObjSeq : ValueObj → String
  | ValueObj.nil => ""
  | ValueObj.cons k v ValueObj.nil =>
      "\"" ++ escapeJson k ++ "\":" ++ jsonToString v
  | ValueObj.cons k v (ValueObj.cons k2 v2 rest) =>
      "\"" ++ escapeJson k ++ "\":" ++ jsonToString v ++ "," ++ jsonObjSeq (ValueObj.cons k2 v2 rest)

end

def objLookup : ValueObj → String → Option Value
  | ValueObj.nil, _ => none
  | ValueObj.cons k v rest, key => if k = key then some v else objLookup rest key

/-- serde_json's `Value::get` with a string key: a field lookup on
objects, `none` on every other kind of value. -/
def Value.get : Value → String → Option Value
  | Value.obj kvs, key => objLookup kvs key
  | _, _ => none

/- ===== The pattern renderer (utils.rs, fn replacer) ===== -/

/-- `.replace("\\", "")` from the Rust code: delete every backslash. -/
def removeBackslashes (s : String) : String :=
  String.mk (s.toList.filter (fun c => c != '\\'))

/-- The mutable locals of `replacer`'s for-loop: `inside`, `output`
and `pattern`, each a growing character buffer or flag. -/
structure RState where
  inside : Bool
  output : List Char
  pattern : List Char
deriving DecidableEq

def rInit : RState := { inside := false, output := [], pattern := [] }

/-- One iteration of `replacer`'s loop on one character. `none`
models the Rust code aborting the call: the two explicit
`panic!()` arms on unbalanced braces, and `String::remove(0)`
aborting when the buffer it is applied to is empty. -/
def rStep (val : Value) (st : RState) (c : Char) : Option RState :=
  if c = '\x7b' then
    if st.inside then none
    else some { st with inside := true }
  else if c = '\x7d' then
    if !st.inside then none
    else
      let p := String.mk st.pattern
      let repl0 : String :=
        match Value.get val p with
        | some v => jsonToString v
        | none => "<<" ++ p ++ ">>"
      let repl1 : List Char := (removeBackslashes repl0).toList
      match repl1.dropLast with
      | [] => none
      | _ :: rest =>
          some { inside := false, output := st.output ++ rest, pattern := [] }
  else
    if st.inside then some { st with pattern := st.pattern ++ [c] }
    else some { st with output := st.output ++ [c] }

def rRun (val : Value) : List Char → RState → Option RState
  | [], st => some st
  | c :: cs, st =>
    match rStep val st c with
    | none => none
    | some st2 => rRun val cs st2

/-- `replacer(val, input)` from utils.rs. `none` models the call
aborting (panic), `some out` a normal return of `out`. -/
def replacer (val : Value) (input : String) : Option String :=
  match rRun val input.toList rInit with
  | none => none
  | some st => some (String.mk st.output)

/-- A template fragment containing neither brace. -/
def braceFree (s : String) : Bool :=
  s.toList.all (fun c => c != '\x7b' && c != '\x7d')

/- ===== The namespace normalizer (utils.rs, fn remove_xml_namespaces) =====

   The Rust function delegates tokenization to quick_xml with
   `trim_text(true)` and default settings; the embedding models
   that reader/writer pair at the event level:
   - text between tags is trimmed of ASCII whitespace and dropped
     when it becomes empty (trim_text);
   - a self-closing tag produces a single Empty event (the default,
     expand_empty_elements is not set), which the Rust code's
     catch-all arm re-emits verbatim;
   - a start tag's event name is the raw content up to the first
     whitespace character; rebuilding the tag from just that name
     (BytesStart::new) discards the attribute text;
   - comments, declarations and other bracketed material are
     re-emitted verbatim by the catch-all arm. -/

inductive XmlEvent where
  | startTag (name : String) (attrs : String) : XmlEvent
  | closeTag (name : String) : XmlEvent
  | emptyTag (content : String) : XmlEvent
  | textNode (content : String) : XmlEvent
  | commentNode (content : String) : XmlEvent
  | otherNode (content : String) : XmlEvent
deriving DecidableEq

/-- How quick_xml's writer serializes each event back to text. -/
def serializeEvent : XmlEvent → String
  | XmlEvent.startTag n a => "<" ++ n ++ a ++ ">"
  | XmlEvent.closeTag n => "</" ++ n ++ ">"
  | XmlEvent.emptyTag c => "<" ++ c ++ "/>"
  | XmlEvent.textNode t => t
  | XmlEvent.commentNode c => "<!--" ++ c ++ "-->"
  | XmlEvent.otherNode c => "<" ++ c ++ ">"

/-- The whitespace characters quick_xml's `trim_text` strips. -/
def isXmlSpace (c : Char) : Bool :=
  c = ' ' || c = Char.ofNat 9 || c = Char.ofNat 13 || c = Char.ofNat 10

def trimList (l : List Char) : List Char :=
  ((l.dropWhile isXmlSpace).reverse.dropWhile isXmlSpace).reverse

/-- Split a character list at the first occurrence of `stop`,
returning the part before it and the part after it; `none` when
`stop` never occurs (truncated input, a parse error). -/
def splitUntil (stop : Char) : List Char → Option (List Char × List Char)
  | [] => none
  | c :: cs =>
    if c = stop then some ([], cs)
    else
      match splitUntil stop cs with
      | none => none
      | some (a, b) => some (c :: a, b)

def leadsWith : List Char → List Char → Bool
  | [], _ => true
  | _ :: _, [] => false
  | p :: ps, c :: cs => p = c && leadsWith ps cs

/-- Split at the first occurrence of the pattern `pat`, returning
the part before it and the part after it. -/
def splitUntilSeq (pat : List Char) : List Char → Option (List Char × List Char)
  | [] => none
  | c :: cs =>
    if leadsWith pat (c :: cs) then some ([], (c :: cs).drop pat.length)
    else
      match splitUntilSeq pat cs with
      | none => none
      | some (a, b) => some (c :: a, b)

/-- Tokenize one markup item, given the characters following a `<`.
Returns the event and the remaining characters. -/
def parseTag (cs : List Char) : Option (XmlEvent × List Char) :=
  match cs with
  | [] => none
  | c :: rest =>
    if c = '/' then
      match splitUntil '>' rest with
      | none => none
      | some (n, remaining) => some (XmlEvent.closeTag (String.mk n), remaining)
    else if c = '!' && leadsWith ['-', '-'] rest then
      match splitUntilSeq ['-', '-', '>'] (rest.drop 2) with
      | none => none
      | some (content, remaining) =>
          some (XmlEvent.commentNode (String.mk content), remaining)
    else if c = '!' || c = '?' then
      match splitUntil '>' (c :: rest) with
      | none => none
      | some (content, remaining) =>
          some (XmlEvent.otherNode (String.mk content), remaining)
    else
      match splitUntil '>' (c :: rest) with
      | none => none
      | some (content, remaining) =>
        match content.getLast? with
        | some '/' => some (XmlEvent.emptyTag (String.mk content.dropLast), remaining)
        | _ =>
          let n := content.takeWhile (fun ch => !isXmlSpace ch)
          let a := content.dropWhile (fun ch => !isXmlSpace ch)
          some (XmlEvent.startTag (String.mk n) (String.mk a), remaining)

/-- The reader loop: tokenize the whole input into events, applying
`trim_text` to text nodes. The fuel argument only bounds recursion;
`parseXml` supplies enough for any input. -/
def parseEventsAux : Nat → List Char → Option (List XmlEvent)
  | _, [] => some []
  | 0, _ :: _ => none
  | fuel + 1, c :: cs =>
    if c = '<' then
      match parseTag cs with
      | none => none
      | some (e, rest) =>
        match parseEventsAux fuel rest with
        | none => none
        | some es => some (e :: es)
    else
      let t := trimList ((c :: cs).takeWhile (fun ch => ch != '<'))
      let rest := (c :: cs).dropWhile (fun ch => ch != '<')
      match parseEventsAux fuel rest with
      | none => none
      | some es =>
        match t with
        | [] => some es
        | _ :: _ => some (XmlEvent.textNode (String.mk t) :: es)

def parseXml (xml : String) : Option (List XmlEvent) :=
  parseEventsAux xml.toList.length xml.toList

/-- Rust `Iterator::position`: index of the first element satisfying
the predicate. -/
def position (p : Char → Bool) : List Char → Option Nat
  | [] => none
  | c :: cs => if p c then some 0 else (position p cs).map (fun n => n + 1)

/-- The inner `modify_name` of `remove_xml_namespaces`: find the
first colon; if present, splice the replacement in place of it,
keeping what comes before and after; otherwise return the name
unchanged. -/
def modifyName (originalName replacement : List Char) : List Char :=
  match position (fun b => b = ':') originalName with
  | some pos => originalName.take pos ++ replacement ++ originalName.drop (pos + 1)
  | none => originalName

def modify_name (originalName replacement : String) : String :=
  String.mk (modifyName originalName.toList replacement.toList)

/-- What the Rust match arms do to one event before writing it:
start tags are rebuilt from the modified name alone (dropping the
attribute text), end tags get the modified name, everything else
falls to the catch-all arm and is written back unchanged. -/
def processEvent (replacement : String) : XmlEvent → XmlEvent
  | XmlEvent.startTag n _ => XmlEvent.startTag (modify_name n replacement) ""
  | XmlEvent.closeTag n => XmlEvent.closeTag (modify_name n replacement)
  | e => e

/-- The writer loop: serialize each processed event into the output
buffer, in order. -/
def writeEvents (replacement : String) : List XmlEvent → String
  | [] => ""
  | e :: es => serializeEvent (processEvent replacement e) ++ writeEvents replacement es

/-- `remove_xml_namespaces(xml, replacement)` from utils.rs.
`none` models the call aborting on a reader error. -/
def remove_xml_namespaces (xml replacement : String) : Option String :=
  match parseXml xml with
  | none => none
  | some es => some (writeEvents replacement es)

/-- Well-pairedness of the event stream: every end tag closes the
innermost open start tag of the same name, and no tag stays open.
The reader (with its default `check_end_names`) errors out on
mismatched pairs, so the claims about well-formed input are stated
under this hypothesis. -/
def balancedAux : List String → List XmlEvent → Bool
  | stk, [] => stk.isEmpty
  | stk, XmlEvent.startTag n _ :: es => balancedAux (n :: stk) es
  | [], XmlEvent.closeTag _ :: _ => false
  | m :: stk, XmlEvent.closeTag n :: es => m = n && balancedAux stk es
  | stk, _ :: es => balancedAux stk es

def balanced (es : List XmlEvent) : Bool := balancedAux [] es

/-- Events that are not start or end tags: their content is what
the claims call non-name content. -/
def isContentEvent : XmlEvent → Bool
  | XmlEvent.startTag _ _ => false
  | XmlEvent.closeTag _ => false
  | _ => true

def colonFreeName : XmlEvent → Bool
  | XmlEvent.startTag n _ => n.toList.all (fun c => c != ':')
  | XmlEvent.closeTag n => n.toList.all (fun c => c != ':')
  | _ => true

def noAttrs : XmlEvent → Bool
  | XmlEvent.startTag _ a => a = ""
  | _ => true

def joinAll : List String → String
  | [] => ""
  | s :: rest => s ++ joinAll rest

/-- One leading and one trailing character removed, in the order the
Rust code does it: `pop()` then `remove(0)`. -/
def stripOuter (s : String) : String :=
  String.mk (s.toList.dropLast.drop 1)

/- ===== Helper lemmas ===== -/

theorem strToList_append (a b : String) : (a ++ b).toList = a.toList ++ b.toList := by
  cases a
  cases b
  rfl

theorem strMk_toList (s : String) : String.mk s.toList = s := by
  cases s
  rfl

theorem braceFree_spec (s : String) (h : braceFree s = true) :
    ∀ c ∈ s.toList, c ≠ '\x7b' ∧ c ≠ '\x7d' := by
  simp only [braceFree, List.all_eq_true, Bool.and_eq_true, bne_iff_ne] at h
  exact h

theorem rRun_cons (val : Value) (c : Char) (cs : List Char) (st : RState) :
    rRun val (c :: cs) st = (rStep val st c).bind (fun st2 => rRun val cs st2) := by
  cases h : rStep val st c <;> simp [rRun, h]

theorem rRun_append (val : Value) (xs ys : List Char) (st : RState) :
    rRun val (xs ++ ys) st = (rRun val xs st).bind (fun st2 => rRun val ys st2) := by
  induction xs generalizing st with
  | nil => simp [rRun]
  | cons c cs ih =>
    simp only [List.cons_append, rRun]
    cases rStep val st c with
    | none => rfl
    | some st2 => exact ih st2

theorem rStep_open (val : Value) (out pat : List Char) :
    rStep val { inside := false, output := out, pattern := pat } '\x7b' =
      some { inside := true, output := out, pattern := pat } := by
  simp [rStep]

theorem rRun_literal (val : Value) (cs : List Char)
    (h : ∀ c ∈ cs, c ≠ '\x7b' ∧ c ≠ '\x7d') (out pat : List Char) :
    rRun val cs { inside := false, output := out, pattern := pat } =
      some { inside := false, output := out ++ cs, pattern := pat } := by
  induction cs generalizing out with
  | nil => simp [rRun]
  | cons c cs ih =>
    have hc := h c (List.mem_cons_self c cs)
    have hrest : ∀ x ∈ cs, x ≠ '\x7b' ∧ x ≠ '\x7d' :=
      fun x hx => h x (List.mem_cons_of_mem c hx)
    simp [rRun, rStep, hc.1, hc.2, ih hrest]

theorem rRun_inside (val : Value) (cs : List Char)
    (h : ∀ c ∈ cs, c ≠ '\x7b' ∧ c ≠ '\x7d') (out pat : List Char) :
    rRun val cs { inside := true, output := out, pattern := pat } =
      some { inside := true, output := out, pattern := pat ++ cs } := by
  induction cs generalizing pat with
  | nil => simp [rRun]
  | cons c cs ih =>
    have hc := h c (List.mem_cons_self c cs)
    have hrest : ∀ x ∈ cs, x ≠ '\x7b' ∧ x ≠ '\x7d' :=
      fun x hx => h x (List.mem_cons_of_mem c hx)
    simp [rRun, rStep, hc.1, hc.2, ih hrest]

/-- Running the scanner over a single-placeholder template reduces
to the close-brace step applied at the state reached after the
literal prefix and the field-name characters. -/
theorem rRun_to_close (val : Value) (pre f : String) (suf : List Char)
    (h1 : braceFree pre = true) (h2 : braceFree f = true) :
    rRun val ((pre ++ "\x7b" ++ f ++ "\x7d").toList ++ suf) rInit =
      (rStep val { inside := true, output := pre.toList, pattern := f.toList } '\x7d').bind
        (fun st => rRun val suf st) := by
  have hpre := braceFree_spec pre h1
  have hf := braceFree_spec f h2
  have hshape : (pre ++ "\x7b" ++ f ++ "\x7d").toList =
      pre.toList ++ ('\x7b' :: (f.toList ++ ['\x7d'])) := by
    simp [strToList_append]
  rw [hshape, List.append_assoc, List.cons_append]
  rw [rRun_append val pre.toList _ rInit]
  have hrunpre := rRun_literal val pre.toList hpre [] []
  simp only [List.nil_append] at hrunpre
  rw [show rInit = { inside := false, output := [], pattern := [] } from rfl, hrunpre,
    Option.some_bind]
  rw [rRun_cons, rStep_open, Option.some_bind]
  rw [List.append_assoc, List.singleton_append]
  rw [rRun_append val f.toList _ _]
  have hrunf := rRun_inside val f.toList hf pre.toList []
  simp only [List.nil_append] at hrunf
  rw [hrunf, Option.some_bind]
  rw [rRun_cons]

theorem toList_mk (l : List Char) : (String.mk l).toList = l := rfl

theorem rStep_close_absent (val : Value) (out pat : List Char)
    (h : Value.get val (String.mk pat) = none) :
    rStep val { inside := true, output := out, pattern := pat } '\x7d' =
      some { inside := false,
             output := out ++ ('<' :: pat.filter (fun c => c != '\\') ++ ['>']),
             pattern := [] } := by
  have e1 : List.filter (fun c => c != '\\') ['<', '<'] = ['<', '<'] := by decide
  have e2 : List.filter (fun c => c != '\\') ['>', '>'] = ['>', '>'] := by decide
  have hx : (removeBackslashes ("<<" ++ String.mk pat ++ ">>")).toList =
      ('<' :: '<' :: (pat.filter (fun c => c != '\\') ++ ['>'])) ++ ['>'] := by
    simp [removeBackslashes, toList_mk, strToList_append, List.filter_append, e1, e2]
  simp only [rStep, h]
  rw [hx, List.dropLast_concat]
  rfl

theorem rStep_close_present (val : Value) (out pat : List Char) (v : Value)
    (h : Value.get val (String.mk pat) = some v) :
    rStep val { inside := true, output := out, pattern := pat } '\x7d' =
      match (removeBackslashes (jsonToString v)).toList.dropLast with
      | [] => none
      | _ :: rest => some { inside := false, output := out ++ rest, pattern := [] } := by
  simp [rStep, h]

/- ===== Claims about the pattern renderer ===== -/

/-- Claim C9: for every record and every template containing no
placeholders (no brace characters at all), `replacer` returns the
template unchanged. -/
theorem c9_no_placeholder_identity (val : Value) (input : String)
    (h : braceFree input = true) :
    replacer val input = some input := by
  have hs := braceFree_spec input h
  have h2 := rRun_literal val input.toList hs [] []
  simp only [List.nil_append] at h2
  unfold replacer
  rw [show rInit = { inside := false, output := [], pattern := [] } from rfl, h2]
  show some (String.mk input.toList) = some input
  rw [strMk_toList]

theorem c9_witness :
    replacer (Value.obj ValueObj.nil) "no placeholders here" = some "no placeholders here" :=
  c9_no_placeholder_identity (Value.obj ValueObj.nil) "no placeholders here" (by decide)

/-- Claim C6: a second `\x7b` while a placeholder is already open,
or a `\x7d` while none is open, makes the whole call fail (the
Rust code panics); no truncated output string is returned. -/
theorem c6_unbalanced_braces_fail (val : Value) (pre mid rest : String) (st : RState)
    (h1 : rRun val pre.toList rInit = some st) (h2 : st.inside = false) :
    (braceFree mid = true →
      replacer val (pre ++ "\x7b" ++ mid ++ "\x7b" ++ rest) = none) ∧
    replacer val (pre ++ "\x7d" ++ rest) = none := by
  obtain ⟨ins, out, pat⟩ := st
  simp only at h2
  subst h2
  constructor
  · intro hmid
    have hm := braceFree_spec mid hmid
    unfold replacer
    rw [show (pre ++ "\x7b" ++ mid ++ "\x7b" ++ rest).toList =
        pre.toList ++ ('\x7b' :: (mid.toList ++ ('\x7b' :: rest.toList))) from by
      simp [strToList_append]]
    rw [rRun_append, h1, Option.some_bind, rRun_cons, rStep_open, Option.some_bind]
    rw [rRun_append, rRun_inside val mid.toList hm out pat, Option.some_bind]
    rw [rRun_cons, show rStep val { inside := true, output := out, pattern := pat ++ mid.toList }
        '\x7b' = none from by simp [rStep]]
    rfl
  · unfold replacer
    rw [show (pre ++ "\x7d" ++ rest).toList =
        pre.toList ++ ('\x7d' :: rest.toList) from by simp [strToList_append]]
    rw [rRun_append, h1, Option.some_bind, rRun_cons,
      show rStep val { inside := false, output := out, pattern := pat } '\x7d' = none from by
        simp [rStep]]
    rfl

theorem c6_witness :
    replacer (Value.obj ValueObj.nil) ("ab" ++ "\x7b" ++ "cd" ++ "\x7b" ++ "ef") = none ∧
      replacer (Value.obj ValueObj.nil) ("ab" ++ "\x7d" ++ "cd") = none :=
  ⟨(c6_unbalanced_braces_fail (Value.obj ValueObj.nil) "ab" "cd" "ef"
      { inside := false, output := ['a', 'b'], pattern := [] } (by decide) rfl).1 (by decide),
   (c6_unbalanced_braces_fail (Value.obj ValueObj.nil) "ab" "cd" "cd"
      { inside := false, output := ['a', 'b'], pattern := [] } (by decide) rfl).2⟩

/-- Claim C7: a template that ends inside an unterminated
placeholder returns the output accumulated before the opening
brace, silently dropping the unterminated fragment, and does not
fail. -/
theorem c7_unterminated_dropped (val : Value) (t frag : String) (st : RState)
    (h1 : rRun val t.toList rInit = some st) (h2 : st.inside = false)
    (h3 : braceFree frag = true) :
    replacer val (t ++ "\x7b" ++ frag) = some (String.mk st.output) ∧
      replacer val (t ++ "\x7b" ++ frag) = replacer val t := by
  obtain ⟨ins, out, pat⟩ := st
  simp only at h2
  subst h2
  have hfr := braceFree_spec frag h3
  have hmain : replacer val (t ++ "\x7b" ++ frag) = some (String.mk out) := by
    unfold replacer
    rw [show (t ++ "\x7b" ++ frag).toList = t.toList ++ ('\x7b' :: frag.toList) from by
      simp [strToList_append]]
    rw [rRun_append, h1, Option.some_bind, rRun_cons, rStep_open, Option.some_bind]
    rw [rRun_inside val frag.toList hfr out pat]
  refine ⟨hmain, hmain.trans ?_⟩
  unfold replacer
  rw [h1]

theorem c7_witness :
    replacer (Value.obj (ValueObj.cons "x" (Value.str "hi") ValueObj.nil))
      ("a\x7bx\x7db" ++ "\x7b" ++ "unterminated") = some "ahib" :=
  ((c7_unterminated_dropped (Value.obj (ValueObj.cons "x" (Value.str "hi") ValueObj.nil))
      "a\x7bx\x7db" "unterminated"
      { inside := false, output := ['a', 'h', 'i', 'b'], pattern := [] }
      (by decide) rfl (by decide)).1).trans (by decide)

/-- Claim C1 as stated is false: on a record without field `title`,
the template placeholder is replaced by `<title>`, not by the
verbatim sentinel `<<title>>` — the backslash removal, `pop` and
`remove(0)` are applied to the sentinel as well. -/
theorem c1_counterexample :
    replacer (Value.obj ValueObj.nil) "\x7btitle\x7d" = some "<title>" ∧
      replacer (Value.obj ValueObj.nil) "\x7btitle\x7d" ≠ some "<<title>>" := by
  decide

/-- Claim C1 amended: for an absent field `f`, the code builds the
sentinel `<<f>>` and then applies the same post-processing as for
present fields (backslash removal, strip of the last and first
character), so the placeholder is replaced by `<` ++ f minus its
backslashes ++ `>`. -/
theorem c1_sentinel_stripped (val : Value) (pre f suf : String)
    (h1 : braceFree pre = true) (h2 : braceFree f = true) (h3 : braceFree suf = true)
    (h4 : Value.get val f = none) :
    replacer val (pre ++ "\x7b" ++ f ++ "\x7d" ++ suf) =
      some (pre ++ "<" ++ removeBackslashes f ++ ">" ++ suf) := by
  have hsuf := braceFree_spec suf h3
  have hclose := rStep_close_absent val pre.toList f.toList (by rw [strMk_toList]; exact h4)
  unfold replacer
  rw [show (pre ++ "\x7b" ++ f ++ "\x7d" ++ suf).toList =
      (pre ++ "\x7b" ++ f ++ "\x7d").toList ++ suf.toList from by simp [strToList_append]]
  rw [rRun_to_close val pre f suf.toList h1 h2, hclose, Option.some_bind]
  rw [rRun_literal val suf.toList hsuf _ []]
  apply congrArg some
  rw [show pre ++ "<" ++ removeBackslashes f ++ ">" ++ suf =
      String.mk ((pre ++ "<" ++ removeBackslashes f ++ ">" ++ suf).toList) from
    (strMk_toList _).symm]
  apply congrArg String.mk
  simp [strToList_append, removeBackslashes, toList_mk]

theorem c1_witness :
    replacer (Value.obj ValueObj.nil) ("Ep " ++ "\x7b" ++ "title" ++ "\x7d" ++ "!") =
      some "Ep <title>!" :=
  (c1_sentinel_stripped (Value.obj ValueObj.nil) "Ep " "title" "!"
    (by decide) (by decide) (by decide) rfl).trans (by decide)

/-- Claim C5: for a present field, the rendered substitution is the
value's default (serde_json) string representation with all
backslashes removed and then exactly one trailing (`pop`) and one
leading (`remove(0)`) character stripped, provided that
representation still has at least two characters (the shorter case
aborts, see the safety claim). The two orders of backslash removal
and stripping agree here because a serde_json representation never
begins or ends with a backslash. -/
theorem c5_present_field_strip (val : Value) (pre f suf : String) (v : Value)
    (h1 : braceFree pre = true) (h2 : braceFree f = true) (h3 : braceFree suf = true)
    (h4 : Value.get val f = some v)
    (h5 : 2 ≤ (removeBackslashes (jsonToString v)).toList.length) :
    replacer val (pre ++ "\x7b" ++ f ++ "\x7d" ++ suf) =
      some (pre ++ stripOuter (removeBackslashes (jsonToString v)) ++ suf) := by
  have hsuf := braceFree_spec suf h3
  have hclose := rStep_close_present val pre.toList f.toList v (by rw [strMk_toList]; exact h4)
  cases hd : (removeBackslashes (jsonToString v)).toList.dropLast with
  | nil =>
    exfalso
    have hlen : (removeBackslashes (jsonToString v)).toList.dropLast.length = 0 := by
      rw [hd]
      rfl
    rw [List.length_dropLast] at hlen
    omega
  | cons x rest =>
    have hclose2 : rStep val { inside := true, output := pre.toList, pattern := f.toList }
        '\x7d' = some { inside := false, output := pre.toList ++ rest, pattern := [] } := by
      rw [hclose, hd]
    unfold replacer
    rw [show (pre ++ "\x7b" ++ f ++ "\x7d" ++ suf).toList =
        (pre ++ "\x7b" ++ f ++ "\x7d").toList ++ suf.toList from by simp [strToList_append]]
    rw [rRun_to_close val pre f suf.toList h1 h2, hclose2, Option.some_bind]
    rw [rRun_literal val suf.toList hsuf _ []]
    show some (String.mk (pre.toList ++ rest ++ suf.toList)) =
      some (pre ++ stripOuter (removeBackslashes (jsonToString v)) ++ suf)
    apply congrArg some
    rw [show pre ++ stripOuter (removeBackslashes (jsonToString v)) ++ suf =
        String.mk ((pre ++ stripOuter (removeBackslashes (jsonToString v)) ++ suf).toList) from
      (strMk_toList _).symm]
    apply congrArg String.mk
    have hd2 : (removeBackslashes (jsonToString v)).data.dropLast = x :: rest := hd
    simp [strToList_append, stripOuter, toList_mk, hd, hd2]

theorem c5_witness :
    replacer (Value.obj (ValueObj.cons "title" (Value.str "Hello") ValueObj.nil))
      ("Episode: " ++ "\x7b" ++ "title" ++ "\x7d" ++ "") = some "Episode: Hello" :=
  (c5_present_field_strip (Value.obj (ValueObj.cons "title" (Value.str "Hello") ValueObj.nil))
    "Episode: " "title" "" (Value.str "Hello")
    (by decide) (by decide) (by decide) rfl (by decide)).trans (by decide)

/-- Claim C10: when a placeholder's field is present but its default
string representation, after backslash removal, has fewer than two
characters (for example a single-digit number), the call aborts
(`String::remove(0)` on an emptied buffer) instead of returning a
string. -/
theorem c10_short_value_aborts (val : Value) (pre f suf : String) (v : Value)
    (h1 : braceFree pre = true) (h2 : braceFree f = true)
    (h3 : Value.get val f = some v)
    (h4 : (removeBackslashes (jsonToString v)).toList.length < 2) :
    replacer val (pre ++ "\x7b" ++ f ++ "\x7d" ++ suf) = none := by
  have hclose := rStep_close_present val pre.toList f.toList v (by rw [strMk_toList]; exact h3)
  have hd : (removeBackslashes (jsonToString v)).toList.dropLast = [] := by
    have hlen := List.length_dropLast (removeBackslashes (jsonToString v)).toList
    have : (removeBackslashes (jsonToString v)).toList.dropLast.length = 0 := by omega
    exact List.eq_nil_of_length_eq_zero this
  unfold replacer
  rw [show (pre ++ "\x7b" ++ f ++ "\x7d" ++ suf).toList =
      (pre ++ "\x7b" ++ f ++ "\x7d").toList ++ suf.toList from by simp [strToList_append]]
  rw [rRun_to_close val pre f suf.toList h1 h2, hclose, hd]
  rfl

theorem c10_witness :
    replacer (Value.obj (ValueObj.cons "n" (Value.num 5) ValueObj.nil))
      ("" ++ "\x7b" ++ "n" ++ "\x7d" ++ "") = none :=
  c10_short_value_aborts (Value.obj (ValueObj.cons "n" (Value.num 5) ValueObj.nil))
    "" "n" "" (Value.num 5) (by decide) (by decide) rfl (by decide)

/- ===== Helper lemmas for the namespace normalizer ===== -/

theorem strAppend_empty (s : String) : s ++ "" = s := by
  cases s with
  | mk data =>
    show String.mk (data ++ []) = String.mk data
    rw [List.append_nil]

theorem position_append_colon (l r : List Char) (h : ∀ x ∈ l, x ≠ ':') :
    position (fun b => b = ':') (l ++ ':' :: r) = some l.length := by
  induction l with
  | nil => simp [position]
  | cons c cs ih =>
    have hc := h c (List.mem_cons_self c cs)
    have hrest := ih (fun x hx => h x (List.mem_cons_of_mem c hx))
    simp [position, hc, hrest]

theorem position_none (l : List Char) (h : ∀ x ∈ l, x ≠ ':') :
    position (fun b => b = ':') l = none := by
  induction l with
  | nil => rfl
  | cons c cs ih =>
    have hc := h c (List.mem_cons_self c cs)
    have hrest := ih (fun x hx => h x (List.mem_cons_of_mem c hx))
    simp [position, hc, hrest]

theorem modifyName_colon (l r repl : List Char) (h : ∀ x ∈ l, x ≠ ':') :
    modifyName (l ++ ':' :: r) repl = l ++ repl ++ r := by
  unfold modifyName
  rw [position_append_colon l r h]
  show List.take l.length (l ++ ':' :: r) ++ repl ++ List.drop (l.length + 1) (l ++ ':' :: r) =
    l ++ repl ++ r
  rw [List.take_left' rfl, show l ++ ':' :: r = (l ++ [':']) ++ r from by simp,
    List.drop_left' (by simp)]

theorem modifyName_no_colon (l repl : List Char) (h : ∀ x ∈ l, x ≠ ':') :
    modifyName l repl = l := by
  unfold modifyName
  rw [position_none l h]

theorem modify_name_no_colon (n tok : String) (h : ∀ x ∈ n.toList, x ≠ ':') :
    modify_name n tok = n := by
  unfold modify_name
  rw [modifyName_no_colon n.toList tok.toList h, strMk_toList]

theorem writeEvents_eq_joinAll (tok : String) (es : List XmlEvent) :
    writeEvents tok es = joinAll (es.map (fun e => serializeEvent (processEvent tok e))) := by
  induction es with
  | nil => rfl
  | cons e es ih => simp [writeEvents, joinAll, ih]

theorem processEvent_id (tok : String) (e : XmlEvent)
    (h1 : colonFreeName e = true) (h2 : noAttrs e = true) :
    processEvent tok e = e := by
  cases e with
  | startTag n a =>
    simp only [noAttrs, decide_eq_true_eq] at h2
    simp only [colonFreeName, List.all_eq_true, bne_iff_ne] at h1
    subst h2
    simp [processEvent, modify_name_no_colon n tok h1]
  | closeTag n =>
    simp only [colonFreeName, List.all_eq_true, bne_iff_ne] at h1
    simp [processEvent, modify_name_no_colon n tok h1]
  | emptyTag c => rfl
  | textNode t => rfl
  | commentNode c => rfl
  | otherNode c => rfl

theorem splitUntil_append (stop : Char) (a r : List Char) (h : ∀ x ∈ a, x ≠ stop) :
    splitUntil stop (a ++ stop :: r) = some (a, r) := by
  induction a with
  | nil => simp [splitUntil]
  | cons c cs ih =>
    have hc := h c (List.mem_cons_self c cs)
    have hrest := ih (fun x hx => h x (List.mem_cons_of_mem c hx))
    simp [splitUntil, hc, hrest]

theorem parseEventsAux_selfClosing (fuel : Nat) (ch : Char) (L2 : List Char)
    (h2 : ∀ x ∈ ch :: L2, x ≠ '>')
    (hch1 : ch ≠ '/') (hch2 : ch ≠ '!') (hch3 : ch ≠ '?') :
    parseEventsAux (fuel + 1) ('<' :: ((ch :: L2) ++ ['/', '>'])) =
      some [XmlEvent.emptyTag (String.mk (ch :: L2))] := by
  have hsplit : splitUntil '>' (ch :: (L2 ++ ['/', '>'])) = some ((ch :: L2) ++ ['/'], []) := by
    have hmem : ∀ x ∈ (ch :: L2) ++ ['/'], x ≠ '>' := by
      intro x hx
      rcases List.mem_append.mp hx with hl | hr
      · exact h2 x hl
      · rw [List.mem_singleton.mp hr]
        decide
    have := splitUntil_append '>' ((ch :: L2) ++ ['/']) [] hmem
    simpa using this
  have htag : parseTag ((ch :: L2) ++ ['/', '>']) =
      some (XmlEvent.emptyTag (String.mk (ch :: L2)), []) := by
    show parseTag (ch :: (L2 ++ ['/', '>'])) = _
    simp only [parseTag]
    rw [if_neg hch1]
    rw [if_neg (by simp [hch2] :
      ¬((ch = '!' && leadsWith ['-', '-'] (L2 ++ ['/', '>'])) = true))]
    rw [if_neg (by simp [hch2, hch3] : ¬((ch = '!' || ch = '?') = true))]
    rw [hsplit]
    have hlast2 : (ch :: (L2 ++ ['/'])).getLast? = some '/' := List.getLast?_concat (ch :: L2)
    have hdrop2 : (ch :: (L2 ++ ['/'])).dropLast = ch :: L2 := by
      rw [show ch :: (L2 ++ ['/']) = (ch :: L2) ++ ['/'] from rfl, List.dropLast_concat]
    simp [hlast2, hdrop2]
  simp only [parseEventsAux, if_true, eq_self_iff_true]
  rw [htag]
  simp [parseEventsAux]

/- ===== Claims about the namespace normalizer ===== -/

/-- Claim C8: only the first colon in a start or end tag name is
replaced by the token (the prefix before and the local name after
are kept, later colons survive); a name with no colon is left
unchanged. -/
theorem c8_first_colon_only (a b n tok : String) :
    ((∀ x ∈ a.toList, x ≠ ':') →
      modify_name (a ++ ":" ++ b) tok = a ++ tok ++ b) ∧
    ((∀ x ∈ n.toList, x ≠ ':') → modify_name n tok = n) := by
  constructor
  · intro h
    unfold modify_name
    rw [show (a ++ ":" ++ b).toList = a.toList ++ ':' :: b.toList from by
      simp [strToList_append]]
    rw [modifyName_colon a.toList b.toList tok.toList h]
    rw [show a ++ tok ++ b = String.mk ((a ++ tok ++ b).toList) from (strMk_toList _).symm]
    apply congrArg String.mk
    simp [strToList_append]
  · intro h
    exact modify_name_no_colon n tok h

theorem c8_witness :
    modify_name ("foo" ++ ":" ++ "bar:baz") "_x_" = "foo_x_bar:baz" ∧
      modify_name "plain" "_x_" = "plain" :=
  ⟨((c8_first_colon_only "foo" "bar:baz" "plain" "_x_").1 (by decide)).trans (by decide),
   (c8_first_colon_only "foo" "bar:baz" "plain" "_x_").2 (by decide)⟩

/-- Claim C2 as stated is false: on a colon-free input the output
must equal the input, but the code drops the attributes of start
tags (it rebuilds them from the bare name) and trims text nodes
(the reader's trim_text), so the output differs. -/
theorem c2_counterexample :
    remove_xml_namespaces "<a b=\"c\"> t </a>" "_x_" = some "<a>t</a>" ∧
      "<a b=\"c\"> t </a>".toList.all (fun c => c != ':') = true ∧
      some "<a>t</a>" ≠ some "<a b=\"c\"> t </a>" := by
  decide

/-- Claim C2 amended: the output is exactly the in-order
concatenation of the re-serialized events, where text, comment,
self-closing and other events pass through unchanged while start
tags lose their attributes and start/end names have their first
colon rewritten; text is as the reader delivered it, i.e. trimmed. -/
theorem c2_frame (xml tok : String) (es : List XmlEvent)
    (hp : parseXml xml = some es) (_hb : balanced es = true) :
    remove_xml_namespaces xml tok =
      some (joinAll (es.map (fun e => serializeEvent (processEvent tok e)))) ∧
    (∀ e ∈ es, isContentEvent e = true → processEvent tok e = e) := by
  constructor
  · unfold remove_xml_namespaces
    rw [hp]
    show some (writeEvents tok es) =
      some (joinAll (es.map (fun e => serializeEvent (processEvent tok e))))
    rw [writeEvents_eq_joinAll]
  · intro e he hc
    cases e with
    | startTag n a => simp [isContentEvent] at hc
    | closeTag n => simp [isContentEvent] at hc
    | emptyTag c => rfl
    | textNode t => rfl
    | commentNode c => rfl
    | otherNode c => rfl

theorem c2_witness :
    remove_xml_namespaces "<a:b>t<!--c--></a:b>" "_x_" = some "<a_x_b>t<!--c--></a_x_b>" :=
  ((c2_frame "<a:b>t<!--c--></a:b>" "_x_"
      [XmlEvent.startTag "a:b" "", XmlEvent.textNode "t", XmlEvent.commentNode "c",
        XmlEvent.closeTag "a:b"] (by decide) (by decide)).1).trans (by decide)

/-- Claim C3 as stated is false: even with no colon anywhere, a
start tag with an attribute is rewritten without it, so the second
pass is not the identity on such input. -/
theorem c3_counterexample :
    remove_xml_namespaces "<a b=\"c\"></a>" "_x_" = some "<a></a>" ∧
      "<a b=\"c\"></a>".toList.all (fun c => c != ':') = true ∧
      some "<a></a>" ≠ some "<a b=\"c\"></a>" := by
  decide

/-- Claim C3 amended: normalizing is the identity on well-formed
input whose element names are colon-free, provided additionally no
start tag carries attributes and the input coincides with the
serialization of its own (whitespace-trimmed) event stream — the
form every normalizer output has, so a second pass is a no-op. -/
theorem c3_identity_normal_form (xml tok : String) (es : List XmlEvent)
    (hp : parseXml xml = some es) (_hb : balanced es = true)
    (hn : ∀ e ∈ es, colonFreeName e = true ∧ noAttrs e = true)
    (hs : joinAll (es.map serializeEvent) = xml) :
    remove_xml_namespaces xml tok = some xml := by
  unfold remove_xml_namespaces
  rw [hp]
  show some (writeEvents tok es) = some xml
  rw [writeEvents_eq_joinAll]
  rw [List.map_congr_left
    (fun e he => congrArg serializeEvent (processEvent_id tok e (hn e he).1 (hn e he).2))]
  rw [hs]

theorem c3_witness :
    remove_xml_namespaces "<a>t</a>" "_x_" = some "<a>t</a>" :=
  c3_identity_normal_form "<a>t</a>" "_x_"
    [XmlEvent.startTag "a" "", XmlEvent.textNode "t", XmlEvent.closeTag "a"]
    (by decide) (by decide) (by decide) (by decide)

/-- Claim C4 as stated is false: a self-closing element reaches the
catch-all arm as a single Empty event and is re-emitted verbatim;
its namespaced name keeps the colon and is not rewritten the way a
start/end pair would be. -/
theorem c4_counterexample :
    remove_xml_namespaces "<foo:bar/>" "_x_" = some "<foo:bar/>" ∧
      some ("<foo:bar/>" : String) ≠ some "<foo_x_bar/>" ∧
      some ("<foo:bar/>" : String) ≠ some "<foo_x_bar></foo_x_bar>" := by
  decide

/-- Claim C4 amended: a self-closing element is passed through
verbatim, whatever its name; no colon replacement happens there. -/
theorem c4_self_closing_passthrough (c tok : String) (ch : Char) (L2 : List Char)
    (hL : c.toList = ch :: L2)
    (h2 : ∀ x ∈ c.toList, x ≠ '>')
    (hch1 : ch ≠ '/') (hch2 : ch ≠ '!') (hch3 : ch ≠ '?') :
    remove_xml_namespaces ("<" ++ c ++ "/>") tok = some ("<" ++ c ++ "/>") := by
  have hT : ("<" ++ c ++ "/>").toList = '<' :: ((ch :: L2) ++ ['/', '>']) := by
    have hL2 : c.data = ch :: L2 := hL
    simp [strToList_append, hL, hL2]
  have hmem : ∀ x ∈ ch :: L2, x ≠ '>' := by
    rw [← hL]
    exact h2
  unfold remove_xml_namespaces parseXml
  rw [hT]
  rw [show ('<' :: ((ch :: L2) ++ ['/', '>'])).length = (L2.length + 3) + 1 from by
    simp [List.length_append]]
  rw [parseEventsAux_selfClosing (L2.length + 3) ch L2 hmem hch1 hch2 hch3]
  show some (("<" ++ String.mk (ch :: L2) ++ "/>") ++ "") = _
  rw [strAppend_empty, ← hL, strMk_toList]

theorem c4_witness :
    remove_xml_namespaces ("<" ++ "foo:bar" ++ "/>") "_x_" = some ("<" ++ "foo:bar" ++ "/>") :=
  c4_self_closing_passthrough "foo:bar" "_x_" 'f' "oo:bar".toList
    (by decide) (by decide) (by decide) (by decide) (by decide)

/-- The repository's own unit test (tests::test_modify_xml_tags),
reproduced on the embedding as a fidelity check of the reader and
writer model. -/
theorem repoUnitTest_modify_xml_tags :
    remove_xml_namespaces
      "<root><foo:bar>Content</foo:bar><baz:qux>More Content</baz:qux></root>"
      "___placeholder___" =
      some
        "<root><foo___placeholder___bar>Content</foo___placeholder___bar><baz___placeholder___qux>More Content</baz___placeholder___qux></root>" := by
  decide
